import Mathlib

/-!
Verification development for the incremental-relayout core:
span addressing (src/syntax/span.rs) and the stability provider,
introspector and relayout driver (src/model/typeset.rs).
-/

namespace Typst

/-! ## Span addressing (src/syntax/span.rs) -/

/-- Embeds `SourceId::into_u16`. `SourceId` is external to the sampled files;
the spec describes it as an opaque small integer wrapping a `u16`, so we carry
a natural number and truncate to 16 bits where the source casts. -/
def SourceId.into_u16 (id : Nat) : Nat := id % 2 ^ 16

/-- Embeds `SourceId::from_u16` (wraps a value already below `2 ^ 16`). -/
def SourceId.from_u16 (v : Nat) : Nat := v

/-- Embeds `struct Span(NonZeroU64)`: the `u64` payload carried as a `Nat`. -/
structure Span where
  bits : Nat
deriving DecidableEq, Repr

/-- Embeds `Span::BITS = 48`. -/
def Span.BITS : Nat := 48

/-- Embeds `Span::DETACHED = 1`. -/
def Span.DETACHED : Nat := 1

/-- Embeds `Span::FULL = 2 .. (1 << Self::BITS)` as a (start, stop) pair. -/
def Span.FULL : Nat × Nat := (2, 1 <<< Span.BITS)

/-- Embeds `to_non_zero`; `none` models the "span encoding is zero" panic
branch. -/
def to_non_zero (v : Nat) : Option Nat :=
  if v = 0 then none else some v

/-- The `bits` value computed inside `Span::new` before `to_non_zero`:
`((id.into_u16() as u64) << Self::BITS) | number`. -/
def Span.newBits (id : Nat) (number : Nat) : Nat :=
  (SourceId.into_u16 id <<< Span.BITS) ||| number

/-- Embeds `Span::new(id, number)`; `none` models the assertion failure for a
number outside `FULL` and the `to_non_zero` panic branch. -/
def Span.new (id : Nat) (number : Nat) : Option Span :=
  if Span.FULL.1 ≤ number ∧ number < Span.FULL.2 then
    (to_non_zero (Span.newBits id number)).map Span.mk
  else
    none

/-- Embeds `Span::detached()`. -/
def Span.detached : Option Span :=
  (to_non_zero Span.DETACHED).map Span.mk

/-- Embeds `Span::source()`: `SourceId::from_u16((self.0.get() >> BITS) as u16)`. -/
def Span.source (s : Span) : Nat :=
  SourceId.from_u16 ((s.bits >>> Span.BITS) % 2 ^ 16)

/-- Embeds `Span::number()`: `self.0.get() & ((1 << BITS) - 1)`. -/
def Span.number (s : Span) : Nat :=
  s.bits &&& ((1 <<< Span.BITS) - 1)

/-! ## Stable identities (src/model/typeset.rs) -/

/-- Embeds `struct StableId(u128, u64)`: a call-site fingerprint paired with a
disambiguating slot. -/
structure StableId where
  hash : Nat
  slot : Nat
deriving DecidableEq, Repr

/-- Embeds `struct StabilityProvider(HashMap<u128, u64>)`: the per-pass map
from fingerprint to next slot counter, carried as a total function defaulting
to 0 (matching `entry(hash).or_default()`). -/
structure StabilityProvider where
  counters : Nat → Nat

/-- Embeds `StabilityProvider::new`. -/
def StabilityProvider.new : StabilityProvider := ⟨fun _ => 0⟩

/-- Embeds `StabilityProvider::identify`: returns `StableId(hash, slot)` for
the current counter of `hash`, then increments that counter. -/
def StabilityProvider.identify (p : StabilityProvider) (hash : Nat) :
    StableId × StabilityProvider :=
  let slot := p.counters hash
  (⟨hash, slot⟩, ⟨fun h => if h = hash then slot + 1 else p.counters h⟩)

/-- Runs a sequence of `identify` calls on a provider, collecting the returned
ids in order. -/
def StabilityProvider.identifyAll (p : StabilityProvider) : List Nat → List StableId
  | [] => []
  | k :: ks => ((p.identify k).1) :: ((p.identify k).2).identifyAll ks

/-! ## Introspector data model (src/model/typeset.rs) -/

/-- Modelled from the spec: `Content` (external to the sampled files) is an
opaque, cloneable value; modelled as a natural number. -/
abbrev Content := Nat

/-- Modelled from the spec: `Selector` (external) is an opaque predicate over
content supporting equality; modelled as the finite set of content values it
matches, carried as a list. -/
abbrev Selector := List Content

/-- Modelled from the spec: `Selector::matches`, membership in the modelled
match set. -/
def Selector.matches (s : Selector) (c : Content) : Bool :=
  s.contains c

/-- Modelled from the spec: a 2D point (`crate::geom` is external); the scalar
type is abstracted to the integers. -/
structure Point where
  x : Int
  y : Int
deriving DecidableEq, Repr

/-- Modelled from the spec: a 2D affine transform (`crate::geom::Transform` is
external), as the matrix `[[sx, kx, tx], [ky, sy, ty]]` over the integers. -/
structure Transform where
  sx : Int
  ky : Int
  kx : Int
  sy : Int
  tx : Int
  ty : Int
deriving DecidableEq, Repr

/-- Modelled from the spec: `Transform::identity`. -/
def Transform.identity : Transform := ⟨1, 0, 0, 1, 0, 0⟩

/-- Modelled from the spec: `Transform::translate`. -/
def Transform.translate (x y : Int) : Transform := ⟨1, 0, 0, 1, x, y⟩

/-- Modelled from the spec: `self.pre_concat(prior)` composes so that `prior`
applies first, then `self`; matrix product. -/
def Transform.pre_concat (t prior : Transform) : Transform :=
  ⟨t.sx * prior.sx + t.kx * prior.ky,
   t.ky * prior.sx + t.sy * prior.ky,
   t.sx * prior.kx + t.kx * prior.sy,
   t.ky * prior.kx + t.sy * prior.sy,
   t.sx * prior.tx + t.kx * prior.ty + t.tx,
   t.ky * prior.tx + t.sy * prior.ty + t.ty⟩

/-- Modelled from the spec: `Point::transform` applies an affine transform to
a point. -/
def Point.transform (pt : Point) (t : Transform) : Point :=
  ⟨t.sx * pt.x + t.kx * pt.y + t.tx, t.ky * pt.x + t.sy * pt.y + t.ty⟩

/-- Embeds `Location { page, pos }` from `crate::doc` (1-based page plus
transformed position). -/
structure Location where
  page : Nat
  pos : Point
deriving DecidableEq, Repr

/-- A node content as stored by the introspector: the original content with
the location pushed under the reserved `loc` field
(`node.push_field("loc", ...)`), modelled as a pair. -/
abbrev LocContent := Content × Location

/-- Modelled from the spec: a frame element (`crate::doc::Element` is
external). The element's position (the `Point` that `Frame::elements()` pairs
with it) is folded into each constructor; `group` carries the sub-frame's
element list and own transform, `metaNode` is the `Element::Meta(Meta::Node(id,
content), _)` case, and `other` stands for every other element kind. -/
inductive Element where
  | group (pos : Point) (transform : Transform) (frame : List Element)
  | metaNode (pos : Point) (id : StableId) (content : Content)
  | other

/-- Modelled from the spec: a frame is its list of positioned elements. -/
abbrev Frame := List Element

/-- Modelled from the spec: a document is its ordered list of pages. -/
structure Document where
  pages : List Frame

/-- Embeds `struct Introspector { nodes, queries }`. `hash128` over a query's
result list (external `crate::util::hash128`) is modelled as the identity
fingerprint, so a recorded fingerprint is the result list itself. -/
structure Introspector where
  nodes : List (StableId × LocContent)
  queries : List (Selector × List (StableId × LocContent))
deriving DecidableEq, Repr

/-- Embeds `Introspector::new`. -/
def Introspector.new : Introspector := ⟨[], []⟩

/-- Embeds `Introspector::locate_impl`: filter the node index by the selector,
preserving order. -/
def locate_impl (nodes : List (StableId × LocContent)) (selector : Selector) :
    List (StableId × LocContent) :=
  nodes.filter (fun p => selector.matches p.2.1)

/-- Embeds `Introspector::extract`, specialized to run over an element list
with the node accumulator threaded explicitly (the source mutates
`self.nodes`): groups are descended with the composed transform, a meta node
is appended (with its location pushed) unless its id is already recorded, and
other elements are skipped. -/
def extractList (page : Nat) : List (StableId × LocContent) → Transform → List Element →
    List (StableId × LocContent)
  | nodes, _, [] => nodes
  | nodes, ts, Element.group pos gts gframe :: rest =>
    extractList page
      (extractList page nodes
        ((ts.pre_concat (Transform.translate pos.x pos.y)).pre_concat gts) gframe)
      ts rest
  | nodes, ts, Element.metaNode pos id content :: rest =>
    extractList page
      (if nodes.any (fun p => p.1 == id) then nodes
       else nodes ++ [(id, (content, ⟨page, pos.transform ts⟩))])
      ts rest
  | nodes, ts, Element.other :: rest => extractList page nodes ts rest

/-- Embeds `Introspector::update`: rebuild the node index from scratch by
extracting every page (1-based) starting from the identity transform, take the
accumulated queries (leaving the table empty), and report stability iff every
recorded query fingerprint matches a re-evaluation against the fresh index. -/
def Introspector.update (intro : Introspector) (document : Document) :
    Bool × Introspector :=
  let nodes := document.pages.enum.foldl
    (fun acc p => extractList (1 + p.1) acc Transform.identity p.2) []
  (intro.queries.all (fun q => locate_impl nodes q.1 == q.2),
   { nodes := nodes, queries := [] })

/-- Embeds `Introspector::locate`: filter the current index, and record the
`(selector, fingerprint)` pair unless this exact selector was already
recorded. -/
def Introspector.locate (intro : Introspector) (selector : Selector) :
    List (StableId × LocContent) × Introspector :=
  let nodes := locate_impl intro.nodes selector
  if intro.queries.any (fun q => q.1 == selector) then (nodes, intro)
  else (nodes, { intro with queries := intro.queries ++ [(selector, nodes)] })

/-! ## Relayout driver (src/model/typeset.rs) -/

/-- Modelled from the spec: the external layout routine
`(library.items.layout)(&mut vt, content, styles)`. One pass's observable
behaviour is the produced document together with the ordered sequence of
selectors it passed to `locate` through the context during the pass; it may
depend on the pass index (covering the fresh provider and any external state)
and on the introspector contents visible through the context. Failure is an
`Except.error`. -/
abbrev Layout (E : Type) := Nat → Introspector → Except E (Document × List Selector)

/-- Replays the `locate` calls a pass made, in order, accumulating query
records exactly as `Introspector::locate` does (the node index is unchanged
for the whole pass, so replaying after the pass is observationally the same
as the interleaved calls in the source). -/
def replayLocates (intro : Introspector) : List Selector → Introspector
  | [] => intro
  | s :: ss => replayLocates (intro.locate s).2 ss

/-- The instrumented outcome of `typeset`: the returned document or propagated
layout error, the number of layout invocations, the boolean returned by each
`Introspector::update` call in order, and the documents produced by the
successive passes. -/
structure TypesetResult (E : Type) where
  res : Except E Document
  passes : Nat
  updates : List Bool
  docs : List Document

/-- Prepends one unstable pass to a loop outcome: the pass's document and its
false update result are recorded in front of the rest of the run. -/
def consPass {E : Type} (doc : Document) (r : TypesetResult E) : TypesetResult E :=
  ⟨r.res, r.passes, false :: r.updates, doc :: r.docs⟩

/-- Embeds the loop body of `typeset`: run the layout routine (propagating a
failure immediately), record the pass's locate calls, then evaluate
`if iter >= 5 || introspector.update(&document)` with the source's
short-circuit — on the fifth pass `update` is not called — breaking with the
current document or continuing with the updated introspector. -/
def typesetGo {E : Type} (layout : Layout E) (intro : Introspector) (iter : Nat) :
    TypesetResult E :=
  match layout iter intro with
  | .error e => ⟨.error e, iter + 1, [], []⟩
  | .ok dsels =>
    if h : iter + 1 ≥ 5 then ⟨.ok dsels.1, iter + 1, [], [dsels.1]⟩
    else
      if ((replayLocates intro dsels.2).update dsels.1).1 then
        ⟨.ok dsels.1, iter + 1, [true], [dsels.1]⟩
      else
        consPass dsels.1
          (typesetGo layout ((replayLocates intro dsels.2).update dsels.1).2 (iter + 1))
termination_by 5 - iter
decreasing_by omega

/-- Embeds `typeset`: start the relayout loop with a fresh introspector and a
zero attempt count. -/
def typeset {E : Type} (layout : Layout E) : TypesetResult E :=
  typesetGo layout Introspector.new 0

/-! ## Specification-side walk and sample layouts -/

/-- Follows the spec's words for C7: the flat depth-first occurrence walk of
one page's elements ("elements in order, descending into groups"), composing
transforms exactly as the extraction does but recording every meta node
occurrence without deduplication. -/
def walkList (page : Nat) : Transform → List Element → List (StableId × LocContent)
  | _, [] => []
  | ts, Element.group pos gts gframe :: rest =>
    walkList page ((ts.pre_concat (Transform.translate pos.x pos.y)).pre_concat gts) gframe ++
      walkList page ts rest
  | ts, Element.metaNode pos id content :: rest =>
    (id, (content, ⟨page, pos.transform ts⟩)) :: walkList page ts rest
  | ts, Element.other :: rest => walkList page ts rest

/-- Follows the spec's words for C7: the flat occurrence walk of a whole
document, pages in order with 1-based page numbers. -/
def walkDoc (document : Document) : List (StableId × LocContent) :=
  document.pages.enum.flatMap (fun p => walkList (1 + p.1) Transform.identity p.2)

/-- First-occurrence deduplication: fold a list of entries onto an
accumulator, dropping an entry whenever its id is already present. -/
def dedupInto (nodes l : List (StableId × LocContent)) : List (StableId × LocContent) :=
  l.foldl (fun acc e => if acc.any (fun p => p.1 == e.1) then acc else acc ++ [e]) nodes

/-- A layout routine that never stabilizes: pass i produces a single meta node
whose content is i and locates a selector matching every content that can
appear, so each update re-check compares results over different indices and
fails. -/
def unstableLayout : Layout Nat := fun i _ =>
  .ok (⟨[[Element.metaNode ⟨0, 0⟩ ⟨7, 0⟩ i]]⟩, [[0, 1, 2, 3, 4]])

/-- A layout routine that always produces the empty document and runs no
queries; it stabilizes on the first update. -/
def emptyLayout : Layout Nat := fun _ _ => .ok (⟨[]⟩, [])

/-- A layout routine that always fails with error 42. -/
def failingLayout : Layout Nat := fun _ _ => .error 42

/-! ## Span theorems -/

theorem Span.newBits_eq (id n : Nat) (h : n < 2 ^ 48) :
    Span.newBits id n = id % 2 ^ 16 * 2 ^ 48 + n := by
  show (SourceId.into_u16 id <<< Span.BITS) ||| n = id % 2 ^ 16 * 2 ^ 48 + n
  rw [SourceId.into_u16, Span.BITS, Nat.shiftLeft_eq, Nat.mul_comm,
    ← Nat.mul_add_lt_is_or h, Nat.mul_comm]

theorem Span.FULL_eq : Span.FULL = (2, 2 ^ 48) := by
  show (2, 1 <<< Span.BITS) = (2, 2 ^ 48)
  rw [Span.BITS, Nat.shiftLeft_eq, Nat.one_mul]

theorem Span.newBits_ne_zero (id n : Nat) (h2 : 2 ≤ n) (hn : n < 2 ^ 48) :
    Span.newBits id n ≠ 0 := by
  rw [Span.newBits_eq id n hn]
  omega

theorem Span.new_eq_some (id n : Nat) (h2 : 2 ≤ n) (hn : n < 2 ^ 48) :
    Span.new id n = some ⟨Span.newBits id n⟩ := by
  have hc : Span.FULL.1 ≤ n ∧ n < Span.FULL.2 := by
    rw [Span.FULL_eq]
    exact ⟨h2, hn⟩
  rw [Span.new, if_pos hc, to_non_zero, if_neg (Span.newBits_ne_zero id n h2 hn),
    Option.map_some']

/-- C5: for every source id representable in 16 bits and every number in the
valid range [2, 2^48), `Span::new(id, number)` succeeds and its `source()` and
`number()` accessors round-trip to the inputs via the 16/48-bit partition. -/
theorem span_new_roundtrip (id n : Nat) (hid : id < 2 ^ 16)
    (h2 : 2 ≤ n) (hn : n < 2 ^ 48) :
    ∃ s : Span, Span.new id n = some s ∧ s.source = id ∧ s.number = n := by
  have hbits : Span.newBits id n = id * 2 ^ 48 + n := by
    rw [Span.newBits_eq id n hn, Nat.mod_eq_of_lt hid]
  refine ⟨⟨Span.newBits id n⟩, Span.new_eq_some id n h2 hn, ?_, ?_⟩
  · show SourceId.from_u16 ((Span.newBits id n >>> Span.BITS) % 2 ^ 16) = id
    rw [SourceId.from_u16, Span.BITS, Nat.shiftRight_eq_div_pow, hbits,
      Nat.mul_comm, Nat.mul_add_div (Nat.pos_pow_of_pos 48 (by omega)),
      Nat.div_eq_of_lt hn, Nat.add_zero, Nat.mod_eq_of_lt hid]
  · show Span.newBits id n &&& (1 <<< Span.BITS - 1) = n
    rw [Span.BITS, Nat.shiftLeft_eq, Nat.one_mul,
      Nat.and_pow_two_sub_one_eq_mod, hbits, Nat.mul_comm, Nat.mul_add_mod,
      Nat.mod_eq_of_lt hn]

/-- C5 witness: the round-trip at source id 5 and number 10 (the source's own
unit test values). -/
theorem span_new_roundtrip_witness :
    ∃ s : Span, Span.new 5 10 = some s ∧ s.source = 5 ∧ s.number = 10 :=
  span_new_roundtrip 5 10 (by norm_num) (by norm_num) (by norm_num)

/-- C6: the detached sentinel span is distinct from every span constructed
from a source id and a number in the valid range [2, 2^48). -/
theorem span_detached_ne_valid (id n : Nat) (h2 : 2 ≤ n) (hn : n < 2 ^ 48)
    (s d : Span) (hs : Span.new id n = some s) (hd : Span.detached = some d) :
    s ≠ d := by
  have hd' : d = ⟨1⟩ := by
    have h1 : Span.detached = some ⟨1⟩ := rfl
    rw [h1] at hd
    exact (Option.some_inj.mp hd).symm
  have hs' : s = ⟨Span.newBits id n⟩ := by
    rw [Span.new_eq_some id n h2 hn] at hs
    exact (Option.some_inj.mp hs).symm
  have hbits := Span.newBits_eq id n hn
  intro hsd
  rw [hs', hd'] at hsd
  have : Span.newBits id n = 1 := congrArg Span.bits hsd
  omega

/-- C6 witness: at source id 0 and number 2 the constructed span differs from
the detached sentinel. -/
theorem span_detached_ne_valid_witness :
    2 ≤ 2 ∧ (⟨Span.newBits 0 2⟩ : Span) ≠ ⟨Span.DETACHED⟩ :=
  ⟨le_refl 2,
    span_detached_ne_valid 0 2 (le_refl 2) (by norm_num) ⟨Span.newBits 0 2⟩
      ⟨Span.DETACHED⟩ (Span.new_eq_some 0 2 (le_refl 2) (by norm_num)) rfl⟩

/-- C10: for every source id and every number in [2, 2^48) the 64-bit
encoding computed inside `Span::new` is nonzero, and the detached encoding 1
is nonzero, so `to_non_zero` never reaches its panic branch on either. -/
theorem span_encoding_never_zero (id n : Nat) (h2 : 2 ≤ n) (hn : n < 2 ^ 48) :
    to_non_zero (Span.newBits id n) = some (Span.newBits id n) ∧
    to_non_zero Span.DETACHED = some Span.DETACHED := by
  refine ⟨?_, rfl⟩
  rw [to_non_zero, if_neg (Span.newBits_ne_zero id n h2 hn)]

/-- C10 witness: the nonzero encodings at source id 0 and number 2. -/
theorem span_encoding_never_zero_witness :
    to_non_zero (Span.newBits 0 2) = some (Span.newBits 0 2) ∧
    to_non_zero Span.DETACHED = some Span.DETACHED :=
  span_encoding_never_zero 0 2 (le_refl 2) (by norm_num)

/-! ## Stability provider theorems -/

theorem identifyAll_get? (p : StabilityProvider) (ks : List Nat) (i : Nat)
    (a : Nat) (h : ks.get? i = some a) :
    (p.identifyAll ks).get? i =
      some ⟨a, p.counters a + (ks.take i).count a⟩ := by
  induction ks generalizing p i with
  | nil => simp at h
  | cons k ks ih =>
    cases i with
    | zero =>
      have ha : a = k := by simpa using h.symm
      subst ha
      simp [StabilityProvider.identifyAll, StabilityProvider.identify]
    | succ i =>
      have h' : ks.get? i = some a := by simpa using h
      rw [StabilityProvider.identifyAll, List.get?_cons_succ, ih _ i h',
        List.take_succ_cons, List.count_cons]
      by_cases hak : a = k
      · subst hak
        simp [StabilityProvider.identify]
        omega
      · simp [StabilityProvider.identify, hak]
        omega

/-- C4: for every sequence of `identify` calls within one pass, the call at
position i with fingerprint f returns `StableId(f, n)` where n is the number
of earlier calls with fingerprint f (slots in first-seen order from 0); the
output sequence is a function of the key sequence alone, so a fresh provider
fed the identical sequence yields the identical ids. -/
theorem identify_first_seen_slots (ks : List Nat) (i : Nat) (a : Nat)
    (h : ks.get? i = some a) :
    (StabilityProvider.new.identifyAll ks).get? i =
      some ⟨a, (ks.take i).count a⟩ := by
  simpa [StabilityProvider.new] using identifyAll_get? StabilityProvider.new ks i a h

/-- C4 witness: the key sequence [k1, k1, k2, k1] (as [1, 1, 2, 1]) yields
slots 0, 1, 2 for k1 and slot 0 for k2. -/
theorem identify_first_seen_slots_witness :
    (StabilityProvider.new.identifyAll [1, 1, 2, 1]).get? 0 = some ⟨1, 0⟩ ∧
    (StabilityProvider.new.identifyAll [1, 1, 2, 1]).get? 1 = some ⟨1, 1⟩ ∧
    (StabilityProvider.new.identifyAll [1, 1, 2, 1]).get? 2 = some ⟨2, 0⟩ ∧
    (StabilityProvider.new.identifyAll [1, 1, 2, 1]).get? 3 = some ⟨1, 2⟩ :=
  ⟨identify_first_seen_slots [1, 1, 2, 1] 0 1 rfl,
   identify_first_seen_slots [1, 1, 2, 1] 1 1 rfl,
   identify_first_seen_slots [1, 1, 2, 1] 2 2 rfl,
   identify_first_seen_slots [1, 1, 2, 1] 3 1 rfl⟩

theorem count_take_lt (ks : List Nat) (i j : Nat) (a : Nat) (hij : i < j)
    (h : ks.get? i = some a) :
    (ks.take i).count a < (ks.take j).count a := by
  have h1 : ks.take j = ks.take (i + 1) ++ (ks.drop (i + 1)).take (j - (i + 1)) := by
    rw [← List.take_add]
    congr 1
    omega
  have h2 : ks.take (i + 1) = ks.take i ++ [a] := by
    rw [List.take_succ, ← List.get?_eq_getElem?, h]
    rfl
  rw [h1, h2]
  simp [List.count_append]

theorem identifyAll_get?_ne_of_lt (ks : List Nat) (i j : Nat)
    (hi : i < ks.length) (hj : j < ks.length) (hij : i < j) :
    (StabilityProvider.new.identifyAll ks).get? i ≠
      (StabilityProvider.new.identifyAll ks).get? j := by
  have ha : ks.get? i = some (ks.get ⟨i, hi⟩) := List.get?_eq_get hi
  have hb : ks.get? j = some (ks.get ⟨j, hj⟩) := List.get?_eq_get hj
  rw [identifyAll_get? StabilityProvider.new ks i _ ha,
    identifyAll_get? StabilityProvider.new ks j _ hb]
  intro heq
  have heq' := Option.some_inj.mp heq
  have hhash : ks.get ⟨i, hi⟩ = ks.get ⟨j, hj⟩ := congrArg StableId.hash heq'
  have hslot : StabilityProvider.new.counters (ks.get ⟨i, hi⟩) +
        (ks.take i).count (ks.get ⟨i, hi⟩) =
      StabilityProvider.new.counters (ks.get ⟨j, hj⟩) +
        (ks.take j).count (ks.get ⟨j, hj⟩) := congrArg StableId.slot heq'
  rw [← hhash] at hslot
  have hcount := count_take_lt ks i j (ks.get ⟨i, hi⟩) hij ha
  omega

/-- C9: within a single pass, two distinct `identify` calls never return equal
StableIds: same-fingerprint calls get strictly increasing slots and
different-fingerprint calls differ in the fingerprint component. -/
theorem identify_pairwise_distinct (ks : List Nat) (i j : Nat)
    (hi : i < ks.length) (hj : j < ks.length) (hne : i ≠ j) :
    (StabilityProvider.new.identifyAll ks).get? i ≠
      (StabilityProvider.new.identifyAll ks).get? j := by
  rcases Nat.lt_or_ge i j with hij | hge
  · exact identifyAll_get?_ne_of_lt ks i j hi hj hij
  · have hji : j < i := by omega
    exact (identifyAll_get?_ne_of_lt ks j i hj hi hji).symm

/-- C9 witness: in the sequence [1, 1, 2, 1], the first and second calls
(same fingerprint) return distinct ids. -/
theorem identify_pairwise_distinct_witness :
    (StabilityProvider.new.identifyAll [1, 1, 2, 1]).get? 0 ≠
      (StabilityProvider.new.identifyAll [1, 1, 2, 1]).get? 1 :=
  identify_pairwise_distinct [1, 1, 2, 1] 0 1 (by norm_num) (by norm_num)
    (by norm_num)

/-! ## Introspector theorems -/

/-- C1 counterexample: a query table holding the pair `([0], [])`, checked
against the empty document: `update` returns true (the recorded fingerprint
matches), yet the pair recorded before the call is no longer present in the
query table afterwards — `mem::take` emptied it. -/
theorem update_retains_queries_cex :
    ((Introspector.mk [] [([0], [])]).update (Document.mk [])).1 = true ∧
    ([0], ([] : List (StableId × LocContent))) ∈
      (Introspector.mk [] [([0], [])]).queries ∧
    ([0], ([] : List (StableId × LocContent))) ∉
      ((Introspector.mk [] [([0], [])]).update (Document.mk [])).2.queries := by
  refine ⟨rfl, ?_, ?_⟩
  · simp
  · simp [Introspector.update]

/-- C1 amended: `update` always leaves the query table empty —
`std::mem::take` removes the accumulated pairs before re-checking them, so
pairs recorded before the call are checked against the fresh index but not
retained; the next pass re-accumulates its own table through `locate`. -/
theorem update_clears_queries (intro : Introspector) (document : Document) :
    ((intro.update document).2).queries = [] := rfl

theorem dedupInto_append (nodes l1 l2 : List (StableId × LocContent)) :
    dedupInto nodes (l1 ++ l2) = dedupInto (dedupInto nodes l1) l2 := by
  simp [dedupInto, List.foldl_append]

theorem dedupInto_cons (nodes : List (StableId × LocContent))
    (e : StableId × LocContent) (l : List (StableId × LocContent)) :
    dedupInto nodes (e :: l) =
      dedupInto (if nodes.any (fun p => p.1 == e.1) then nodes else nodes ++ [e]) l :=
  rfl

theorem extractList_eq_dedup (page : Nat) (ts : Transform) (els : List Element) :
    ∀ nodes, extractList page nodes ts els = dedupInto nodes (walkList page ts els) := by
  induction ts, els using walkList.induct page with
  | case1 ts =>
    intro nodes
    simp [extractList, walkList, dedupInto]
  | case2 ts pos gts gframe rest ih1 ih2 =>
    intro nodes
    simp only [extractList, walkList]
    rw [ih2, ih1, dedupInto_append]
  | case3 ts pos id content rest ih =>
    intro nodes
    simp only [extractList, walkList]
    rw [ih, dedupInto_cons]
  | case4 ts rest ih =>
    intro nodes
    simp only [extractList, walkList]
    exact ih nodes

theorem extract_pages_eq_dedup (ps : List (Nat × Frame)) :
    ∀ acc, ps.foldl (fun a p => extractList (1 + p.1) a Transform.identity p.2) acc =
      dedupInto acc (ps.flatMap (fun p => walkList (1 + p.1) Transform.identity p.2)) := by
  induction ps with
  | nil =>
    intro acc
    simp [dedupInto]
  | cons p ps ih =>
    intro acc
    rw [List.foldl_cons, List.flatMap_cons, ih, extractList_eq_dedup,
      dedupInto_append]

theorem dedupInto_find? (id : StableId) (l : List (StableId × LocContent)) :
    ∀ acc, (dedupInto acc l).find? (fun e => e.1 == id) =
      (acc ++ l).find? (fun e => e.1 == id) := by
  induction l with
  | nil =>
    intro acc
    simp [dedupInto]
  | cons e l ih =>
    intro acc
    rw [dedupInto_cons]
    by_cases h : (acc.any fun p => p.1 == e.1) = true
    · rw [if_pos h, ih, List.find?_append, List.find?_append]
      by_cases he : e.1 = id
      · obtain ⟨x, hx, hpx⟩ := List.any_eq_true.mp h
        have hsome : (acc.find? fun e => e.1 == id).isSome := by
          rw [List.find?_isSome]
          exact ⟨x, hx, by rw [← he]; exact hpx⟩
        obtain ⟨y, hy⟩ := Option.isSome_iff_exists.mp hsome
        rw [hy]
        simp [Option.or]
      · have hfind : (e :: l).find? (fun e => e.1 == id) =
            l.find? (fun e => e.1 == id) := by
          rw [List.find?_cons_of_neg]
          simp [he]
        rw [hfind]
    · rw [if_neg h, ih, List.append_assoc, List.singleton_append]

theorem dedupInto_pairwise (l : List (StableId × LocContent)) :
    ∀ acc, acc.Pairwise (fun a b => a.1 ≠ b.1) →
      (dedupInto acc l).Pairwise (fun a b => a.1 ≠ b.1) := by
  induction l with
  | nil =>
    intro acc h
    simpa [dedupInto] using h
  | cons e l ih =>
    intro acc h
    rw [dedupInto_cons]
    by_cases hany : (acc.any fun p => p.1 == e.1) = true
    · rw [if_pos hany]
      exact ih acc h
    · rw [if_neg hany]
      refine ih _ ?_
      rw [List.pairwise_append]
      refine ⟨h, List.pairwise_singleton _ _, ?_⟩
      intro x hx y hy
      rw [List.mem_singleton] at hy
      subst hy
      intro hxy
      exact hany (List.any_eq_true.mpr ⟨x, hx, by simp [hxy]⟩)

/-- C7: after `update` processes any document, the rebuilt node index has at
most one entry per StableId (pairwise distinct keys), and looking any id up in
the index gives exactly what looking it up in the flat depth-first occurrence
walk gives — i.e. the retained entry is the first occurrence in the walk. -/
theorem update_nodes_first_occurrence (intro : Introspector)
    (document : Document) :
    ((intro.update document).2.nodes).Pairwise (fun a b => a.1 ≠ b.1) ∧
    ∀ id : StableId,
      ((intro.update document).2.nodes).find? (fun e => e.1 == id) =
        (walkDoc document).find? (fun e => e.1 == id) := by
  have hnodes : (intro.update document).2.nodes = dedupInto [] (walkDoc document) := by
    show document.pages.enum.foldl
      (fun acc p => extractList (1 + p.1) acc Transform.identity p.2) [] = _
    rw [extract_pages_eq_dedup]
    rfl
  constructor
  · rw [hnodes]
    exact dedupInto_pairwise (walkDoc document) [] List.Pairwise.nil
  · intro id
    rw [hnodes, dedupInto_find?, List.nil_append]

/-! ## Relayout driver theorems -/

theorem typesetGo_error {E : Type} (layout : Layout E) (intro : Introspector)
    (iter : Nat) (e : E) (h : layout iter intro = .error e) :
    typesetGo layout intro iter = ⟨.error e, iter + 1, [], []⟩ := by
  rw [typesetGo.eq_def, h]

theorem typesetGo_stop5 {E : Type} (layout : Layout E) (intro : Introspector)
    (iter : Nat) (dsels : Document × List Selector)
    (h : layout iter intro = .ok dsels) (h5 : iter + 1 ≥ 5) :
    typesetGo layout intro iter = ⟨.ok dsels.1, iter + 1, [], [dsels.1]⟩ := by
  rw [typesetGo.eq_def, h]
  exact dif_pos h5

theorem typesetGo_stable {E : Type} (layout : Layout E) (intro : Introspector)
    (iter : Nat) (dsels : Document × List Selector)
    (h : layout iter intro = .ok dsels) (h5 : ¬iter + 1 ≥ 5)
    (hu : ((replayLocates intro dsels.2).update dsels.1).1 = true) :
    typesetGo layout intro iter = ⟨.ok dsels.1, iter + 1, [true], [dsels.1]⟩ := by
  rw [typesetGo.eq_def, h]
  exact (dif_neg h5).trans (if_pos hu)

theorem typesetGo_unstable {E : Type} (layout : Layout E) (intro : Introspector)
    (iter : Nat) (dsels : Document × List Selector)
    (h : layout iter intro = .ok dsels) (h5 : ¬iter + 1 ≥ 5)
    (hu : ((replayLocates intro dsels.2).update dsels.1).1 = false) :
    typesetGo layout intro iter =
      consPass dsels.1
        (typesetGo layout ((replayLocates intro dsels.2).update dsels.1).2 (iter + 1)) := by
  rw [typesetGo.eq_def, h]
  exact (dif_neg h5).trans (if_neg (by rw [hu]; exact Bool.false_ne_true))

/-- C8: if the external layout routine fails on any pass (any reachable loop
state), `typeset` returns that failure immediately: exactly one more layout
invocation happens, `update` is not called on that pass (no update result is
recorded), no further passes run, and no document is returned. -/
theorem layout_error_propagates {E : Type} (layout : Layout E)
    (intro : Introspector) (iter : Nat) (e : E)
    (h : layout iter intro = .error e) :
    typesetGo layout intro iter = ⟨.error e, iter + 1, [], []⟩ :=
  typesetGo_error layout intro iter e h

/-- C8 witness: a layout routine failing with error 42 on the first pass makes
`typeset` return exactly that error after one layout call and zero update
calls. -/
theorem layout_error_propagates_witness :
    typesetGo failingLayout Introspector.new 0 =
      ⟨.error 42, 1, [], []⟩ :=
  layout_error_propagates failingLayout Introspector.new 0 42 rfl

theorem dropLast_cons_ne {α : Type} (a : α) (l : List α) (h : l ≠ []) :
    (a :: l).dropLast = a :: l.dropLast := by
  cases l with
  | nil => exact absurd rfl h
  | cons b l => rfl

theorem getLast?_cons_ne {α : Type} (a : α) (l : List α) (h : l ≠ []) :
    (a :: l).getLast? = l.getLast? := by
  cases l with
  | nil => exact absurd rfl h
  | cons b l => rfl

theorem typesetGo_ok_spec {E : Type} (layout : Layout E) (intro : Introspector)
    (iter : Nat) :
    iter < 5 → ∀ d : Document, (typesetGo layout intro iter).res = .ok d →
      (iter < (typesetGo layout intro iter).passes ∧
        (typesetGo layout intro iter).passes ≤ 5) ∧
      (typesetGo layout intro iter).updates.length + iter =
        min (typesetGo layout intro iter).passes 4 ∧
      (∀ r ∈ (typesetGo layout intro iter).updates.dropLast, r = false) ∧
      ((typesetGo layout intro iter).passes < 5 →
        (typesetGo layout intro iter).updates.getLast? = some true) ∧
      ((typesetGo layout intro iter).passes = 5 →
        ∀ r ∈ (typesetGo layout intro iter).updates, r = false) ∧
      (typesetGo layout intro iter).docs.getLast? = some d ∧
      (typesetGo layout intro iter).docs.length + iter =
        (typesetGo layout intro iter).passes := by
  induction intro, iter using typesetGo.induct layout with
  | case1 intro iter e h =>
    intro h5 d hres
    rw [typesetGo_error layout intro iter e h] at hres
    simp at hres
  | case2 intro iter dsels h hge =>
    intro h5 d hres
    rw [typesetGo_stop5 layout intro iter dsels h hge] at hres ⊢
    dsimp only at hres ⊢
    have hd : dsels.1 = d := by simpa using hres
    subst hd
    refine ⟨⟨by omega, by omega⟩, by simp; omega, by simp, ?_, by simp, by simp,
      by simp; omega⟩
    intro hlt
    exact absurd hlt (by omega)
  | case3 intro iter dsels h h5x hu =>
    intro h5 d hres
    rw [typesetGo_stable layout intro iter dsels h h5x hu] at hres ⊢
    dsimp only at hres ⊢
    have hd : dsels.1 = d := by simpa using hres
    subst hd
    refine ⟨⟨by omega, by omega⟩, by simp; omega, by simp, by simp, ?_, by simp,
      by simp; omega⟩
    intro hp5
    exact absurd hp5 (by omega)
  | case4 intro iter dsels h h5x hu ih =>
    intro h5 d hres
    have hu2 : ((replayLocates intro dsels.2).update dsels.1).1 = false := by
      revert hu
      cases ((replayLocates intro dsels.2).update dsels.1).1 <;> simp
    rw [typesetGo_unstable layout intro iter dsels h h5x hu2] at hres ⊢
    dsimp only [consPass] at hres ⊢
    obtain ⟨⟨hA1, hA2⟩, hB, hC, hD, hE, hF, hG⟩ := ih (by omega) d hres
    have hdocs_ne : (typesetGo layout ((replayLocates intro dsels.2).update dsels.1).2
        (iter + 1)).docs ≠ [] := by
      intro hnil
      rw [hnil] at hG
      simp at hG
      omega
    refine ⟨⟨by omega, hA2⟩, by simp; omega, ?_, ?_, ?_, ?_, by simp; omega⟩
    · rcases hrs : (typesetGo layout ((replayLocates intro dsels.2).update dsels.1).2
          (iter + 1)).updates with _ | ⟨b, l⟩
      · simp [hrs]
      · rw [dropLast_cons_ne false (b :: l) (by simp)]
        intro x hx
        rcases List.mem_cons.mp hx with hx1 | hx2
        · exact hx1
        · exact hC x (by rw [hrs]; exact hx2)
    · intro hplt
      rcases hrs : (typesetGo layout ((replayLocates intro dsels.2).update dsels.1).2
          (iter + 1)).updates with _ | ⟨b, l⟩
      · rw [hrs] at hB
        simp at hB
        omega
      · rw [getLast?_cons_ne false (b :: l) (by simp), ← hrs]
        exact hD hplt
    · intro hp5 x hx
      rcases List.mem_cons.mp hx with hx1 | hx2
      · exact hx1
      · exact hE hp5 x hx2
    · rw [getLast?_cons_ne dsels.1 _ hdocs_ne]
      exact hF

theorem typesetGo_total {E : Type} (layout : Layout E)
    (htotal : ∀ i intro, ∃ out, layout i intro = .ok out)
    (intro : Introspector) (iter : Nat) :
    ∃ d, (typesetGo layout intro iter).res = .ok d := by
  induction intro, iter using typesetGo.induct layout with
  | case1 intro iter e h =>
    obtain ⟨out, hout⟩ := htotal iter intro
    rw [h] at hout
    cases hout
  | case2 intro iter dsels h hge =>
    rw [typesetGo_stop5 layout intro iter dsels h hge]
    exact ⟨dsels.1, rfl⟩
  | case3 intro iter dsels h h5x hu =>
    rw [typesetGo_stable layout intro iter dsels h h5x hu]
    exact ⟨dsels.1, rfl⟩
  | case4 intro iter dsels h h5x hu ih =>
    have hu2 : ((replayLocates intro dsels.2).update dsels.1).1 = false := by
      revert hu
      cases ((replayLocates intro dsels.2).update dsels.1).1 <;> simp
    rw [typesetGo_unstable layout intro iter dsels h h5x hu2]
    exact ih

/-- C2 counterexample: with a layout routine that never stabilizes, the loop
runs 5 passes but `update` is called only 4 times — the source's
`iter >= 5 || introspector.update(&document)` short-circuit skips `update` on
the fifth pass, contradicting "update is called exactly once per pass,
including on the final (fifth) attempt". -/
theorem update_called_every_pass_cex :
    (typeset unstableLayout).passes = 5 ∧
    (typeset unstableLayout).updates = [false, false, false, false] ∧
    (typeset unstableLayout).updates.length ≠ (typeset unstableLayout).passes := by
  have h : (typeset unstableLayout).passes = 5 ∧
      (typeset unstableLayout).updates = [false, false, false, false] := by
    simp +decide [typeset, typesetGo, unstableLayout, replayLocates,
      Introspector.locate, Introspector.update, Introspector.new, locate_impl,
      Selector.matches, extractList, Transform.identity, Transform.pre_concat,
      Transform.translate, Point.transform]
  refine ⟨h.1, h.2, ?_⟩
  rw [h.1, h.2]
  decide

/-- C2 amended: every pass invokes the layout routine and, except on the
fifth pass, then calls `update` exactly once; the `iter >= 5 || update(..)`
short-circuit skips `update` on the fifth attempt, so in a run without layout
failure the number of `update` calls is min(passes, 4), with 1 to 5 passes. -/
theorem update_once_per_pass_except_fifth {E : Type} (layout : Layout E)
    (htotal : ∀ i intro, ∃ out, layout i intro = .ok out) :
    (typeset layout).updates.length = min (typeset layout).passes 4 ∧
    1 ≤ (typeset layout).passes ∧ (typeset layout).passes ≤ 5 := by
  unfold typeset
  obtain ⟨d, hd⟩ := typesetGo_total layout htotal Introspector.new 0
  obtain ⟨⟨h1, h2⟩, hB, _⟩ :=
    typesetGo_ok_spec layout Introspector.new 0 (by omega) d hd
  exact ⟨by omega, by omega, h2⟩

/-- C2 amended witness: the always-empty layout stabilizes after 1 pass with
1 update call = min(1, 4). -/
theorem update_once_per_pass_except_fifth_witness :
    (typeset emptyLayout).updates.length = min (typeset emptyLayout).passes 4 ∧
    1 ≤ (typeset emptyLayout).passes ∧ (typeset emptyLayout).passes ≤ 5 :=
  update_once_per_pass_except_fifth emptyLayout
    (fun _ _ => ⟨(⟨[]⟩, []), rfl⟩)

/-- C3: with a layout routine that never fails, the loop terminates with a
document: 1 to 5 layout invocations, one produced document per pass with the
last one returned; every update result before the final one is false (the
loop stops at the first stable pass), a run of fewer than 5 passes ends with
a true update, and a 5-pass run had only false updates (no pass ever reported
stability — and then exactly 5 passes are performed). -/
theorem relayout_loop_bounds {E : Type} (layout : Layout E)
    (htotal : ∀ i intro, ∃ out, layout i intro = .ok out) :
    (∃ d, (typeset layout).res = .ok d ∧ (typeset layout).docs.getLast? = some d) ∧
    1 ≤ (typeset layout).passes ∧ (typeset layout).passes ≤ 5 ∧
    (typeset layout).docs.length = (typeset layout).passes ∧
    (typeset layout).updates.length = min (typeset layout).passes 4 ∧
    (∀ r ∈ (typeset layout).updates.dropLast, r = false) ∧
    ((typeset layout).passes < 5 → (typeset layout).updates.getLast? = some true) ∧
    ((typeset layout).passes = 5 → ∀ r ∈ (typeset layout).updates, r = false) := by
  unfold typeset
  obtain ⟨d, hd⟩ := typesetGo_total layout htotal Introspector.new 0
  obtain ⟨⟨h1, h2⟩, hB, hC, hD, hE, hF, hG⟩ :=
    typesetGo_ok_spec layout Introspector.new 0 (by omega) d hd
  exact ⟨⟨d, hd, hF⟩, by omega, h2, by omega, by omega, hC, hD, hE⟩

/-- C3 witness: the loop behaviour at the always-empty layout, which
stabilizes on the first pass. -/
theorem relayout_loop_bounds_witness :
    (∃ d, (typeset emptyLayout).res = .ok d ∧
      (typeset emptyLayout).docs.getLast? = some d) ∧
    1 ≤ (typeset emptyLayout).passes ∧ (typeset emptyLayout).passes ≤ 5 ∧
    (typeset emptyLayout).docs.length = (typeset emptyLayout).passes ∧
    (typeset emptyLayout).updates.length = min (typeset emptyLayout).passes 4 ∧
    (∀ r ∈ (typeset emptyLayout).updates.dropLast, r = false) ∧
    ((typeset emptyLayout).passes < 5 →
      (typeset emptyLayout).updates.getLast? = some true) ∧
    ((typeset emptyLayout).passes = 5 →
      ∀ r ∈ (typeset emptyLayout).updates, r = false) :=
  relayout_loop_bounds emptyLayout (fun _ _ => ⟨(⟨[]⟩, []), rfl⟩)

end Typst
